import Mathlib

/-!
Verification of the process-terminal dashboard core.

Shallow embedding of the repository sources (`src/terminal.rs`,
`src/keyboard_actions.rs`, `src/settings.rs`).  Shared mutable state
(`Shared<T>` = `Arc<RwLock<T>>`) is modelled by explicit state passing:
the terminal's shared resources are collected into a `TermState` record,
and every Rust function that mutates shared state becomes a Lean function
from state to state (plus a result where the Rust function returns one).
Machine integers (`u16` scroll offsets) are `Nat` with explicit `% 65536`
where the code can wrap or cast.
-/

/-- Key codes (the subset of `crossterm::event::KeyCode` the crate uses). -/
inductive KeyCode where
  | Char (c : Char)
  | Up
  | Down
  | Left
  | Right
  | Esc
deriving DecidableEq

/-- Key modifiers (the subset of `crossterm::event::KeyModifiers` the crate
uses: empty, SHIFT, CONTROL). -/
inductive KeyModifier where
  | noMod
  | shift
  | ctrl
deriving DecidableEq

/-- An input event: `Event::Key(KeyEvent::new(code, modifier))`. -/
structure KEvent where
  code : KeyCode
  modifiers : KeyModifier
deriving DecidableEq

/-- `KeyCodeExt::into_event` from `keyboard_actions.rs`. -/
def KeyCode.into_event (k : KeyCode) (m : KeyModifier) : KEvent := ⟨k, m⟩

/-- `KeyCodeExt::into_event_no_modifier` from `keyboard_actions.rs`. -/
def KeyCode.into_event_no_modifier (k : KeyCode) : KEvent := ⟨k, .noMod⟩

/-- `MessageSettings` from `settings.rs`: which streams are visible. -/
inductive MessageSettings where
  | None
  | Output
  | Error
  | All
deriving DecidableEq

/-- `ScrollSettings` from `settings.rs`. -/
inductive ScrollSettings where
  | Disable
  | Enable (up down : KeyCode)
deriving DecidableEq

/-- `ProcessSettings` from `settings.rs`. -/
structure ProcessSettings where
  messages : MessageSettings
  scroll : ScrollSettings
  clear_regex : Bool
deriving DecidableEq

/-- `ScrollStatus` from `keyboard_actions.rs`: `x : u16`, `y : Option<u16>`.
Both components are `Nat`s kept below `65536` by explicit `% 65536` in the
operations that can wrap. -/
structure ScrollStatus where
  x : Nat
  y : Option Nat
deriving DecidableEq

/-- `Default` for `ScrollStatus`: `x = 0`, `y = None`. -/
def ScrollStatus.init : ScrollStatus := ⟨0, none⟩

/-- `SearchMessage` from `terminal.rs`: the pending-search slot contents. -/
structure SearchMessage where
  submsg : String
  message : Option String
deriving DecidableEq

/-! ### The control-sequence stripper

`terminal.rs` builds the fixed regex
`\x1b\[([\x30-\x3f]*[\x20-\x2f]*[\x40-\x7e])` and `replace_all`s it with the
empty string.  The three character classes are pairwise disjoint, so the
greedy match is deterministic and `replace_all` (leftmost, non-overlapping)
is implemented by a single left-to-right scan.  The scan is written with a
`length`-sized fuel so that it is structural and kernel-computable. -/

/-- The ESC character `\x1b`. -/
def escChar : Char := Char.ofNat 27

/-- A parameter byte of a CSI sequence: `[\x30-\x3f]`. -/
def isParamByte (c : Char) : Bool := decide (0x30 ≤ c.toNat ∧ c.toNat ≤ 0x3f)

/-- An intermediate byte of a CSI sequence: `[\x20-\x2f]`. -/
def isInterByte (c : Char) : Bool := decide (0x20 ≤ c.toNat ∧ c.toNat ≤ 0x2f)

/-- A final byte of a CSI sequence: `[\x40-\x7e]`. -/
def isFinalByte (c : Char) : Bool := decide (0x40 ≤ c.toNat ∧ c.toNat ≤ 0x7e)

/-- Try to match `[\x30-\x3f]*[\x20-\x2f]*[\x40-\x7e]` at the head of `l`
(the part of the regex after `\x1b\[`); on success return the rest of the
input after the match. -/
def matchCSIBody (l : List Char) : Option (List Char) :=
  match (l.dropWhile isParamByte).dropWhile isInterByte with
  | [] => none
  | c :: rest => if isFinalByte c then some rest else none

/-- Fuelled scan implementing `Regex::clear` (`replace_all` with `""`):
at each position, if a CSI sequence starts there it is dropped and the scan
resumes after it, otherwise the character is kept. -/
def stripCSIFuel : Nat → List Char → List Char
  | _, [] => []
  | 0, l => l
  | fuel + 1, c :: rest =>
    if c = escChar then
      match rest with
      | [] => [c]
      | b :: rest2 =>
        if b = '[' then
          match matchCSIBody rest2 with
          | some rest3 => stripCSIFuel fuel rest3
          | none => c :: stripCSIFuel fuel rest
        else
          c :: stripCSIFuel fuel rest
    else
      c :: stripCSIFuel fuel rest

/-- `Regex::clear` on a line, as a function on its characters. -/
def stripCSI (l : List Char) : List Char := stripCSIFuel l.length l

/-- The optional stripping applied by the capture tasks to every line
(`if let Some(regex) = &regex { regex.clear(line) } else { line }`). -/
def clearLine (clear_regex : Bool) (l : List Char) : List Char :=
  if clear_regex then stripCSI l else l

/-- String-level version of `clearLine`. -/
def procLine (clear_regex : Bool) (line : String) : String :=
  if clear_regex then String.mk (stripCSI line.toList) else line

/-! ### Capture-task steps (`thread_output`, `thread_error`) -/

/-- Rust `str::contains` for a string pattern (substring containment). -/
def containsSub (needle hay : String) : Bool :=
  decide (needle.toList <:+: hay.toList)

/-- The search-slot update `thread_output` performs for one (already
stripped) line: while a request is pending, any line containing the
requested substring is stored as the resolved message. -/
def searchCheck (line : String) : Option SearchMessage → Option SearchMessage
  | none => none
  | some sm =>
    if containsSub sm.submsg line then some { sm with message := some line }
    else some sm

/-- The per-process state the two capture tasks touch: the output buffer,
the error buffer, and the pending-search slot. -/
structure ProcState where
  out : List String
  err : List String
  search : Option SearchMessage
deriving DecidableEq

/-- One iteration of the `thread_output` loop: strip the line if
configured, append it to the output buffer, and run the search check. -/
def outputLineStep (clear_regex : Bool) (s : ProcState) (rawLine : String) :
    ProcState :=
  let line := procLine clear_regex rawLine
  { s with out := s.out ++ [line], search := searchCheck line s.search }

/-- One iteration of the `thread_error` loop: strip the line if configured
and append it to the error buffer.  `thread_error` is not given the
search slot, so the slot (and the output buffer) are untouched. -/
def errorLineStep (clear_regex : Bool) (s : ProcState) (rawLine : String) :
    ProcState :=
  { s with err := s.err ++ [procLine clear_regex rawLine] }

/-- `thread_output` run over a finite list of lines. -/
def outputRun (clear_regex : Bool) (s : ProcState) (lines : List String) :
    ProcState :=
  lines.foldl (outputLineStep clear_regex) s

/-- The resolved message after a run: the most recent processed line
containing `sub`, if any, else the initial contents `m0`. -/
def lastMatch (ls : List String) (sub : String) (m0 : Option String) :
    Option String :=
  match (ls.filter (fun l => containsSub sub l)).getLast? with
  | some l => some l
  | none => m0

/-! ### Processes and the draw snapshot -/

/-- `Process` from `terminal.rs` (the attached variant: shared buffers and
statuses made explicit). -/
structure Process where
  name : String
  out_messages : List String
  err_messages : List String
  settings : ProcessSettings
  scroll_status_out : ScrollStatus
  scroll_status_err : ScrollStatus
  search_message : Option SearchMessage
deriving DecidableEq

/-- `Process::new`: fresh buffers, default scroll statuses, empty slot. -/
def Process.new (name : String) (settings : ProcessSettings) : Process :=
  { name := name
    out_messages := []
    err_messages := []
    settings := settings
    scroll_status_out := ScrollStatus.init
    scroll_status_err := ScrollStatus.init
    search_message := none }

/-- The detached process snapshot
(`Process<Vec<String>, Vec<String>, ScrollStatus, ()>`): the search slot
detaches to `()`. -/
structure DetachProcess where
  name : String
  out_messages : List String
  err_messages : List String
  settings : ProcessSettings
  scroll_status_out : ScrollStatus
  scroll_status_err : ScrollStatus
  search_message : Unit
deriving DecidableEq

/-- `Process::detach`. -/
def Process.detach (p : Process) : DetachProcess :=
  { name := p.name
    out_messages := p.out_messages
    err_messages := p.err_messages
    settings := p.settings
    scroll_status_out := p.scroll_status_out
    scroll_status_err := p.scroll_status_err
    search_message := () }

/-- `DetachBaseStatus` = `BaseStatus<ScrollStatus, Option<usize>>`. -/
structure DetachBaseStatus where
  main_scroll : ScrollStatus
  focus : Option Nat
deriving DecidableEq

/-- `DrawCacheDetach` = `DrawCache<Vec<String>, DetachBaseStatus,
Vec<DetachProcess>>`: the fully-owned snapshot compared each tick. -/
structure DrawCacheDetach where
  main_messages : List String
  main_scroll : DetachBaseStatus
  processes : List DetachProcess
deriving DecidableEq

/-- `DrawCache::default_detach`: the initial cache of the draw loop. -/
def defaultDetach : DrawCacheDetach :=
  { main_messages := [], main_scroll := ⟨ScrollStatus.init, none⟩, processes := [] }

/-- One tick of the `thread_draw` loop head:
`if read == cache { continue } else { cache = read.clone(); draw }`.
Returns the cache after the tick and whether a draw was performed. -/
def drawStep (read cache : DrawCacheDetach) : DrawCacheDetach × Bool :=
  if read = cache then (cache, false) else (read, true)

/-! ### Keyboard actions -/

/-- Identifies which shared `ScrollStatus` (and message buffer) an
`ActionScroll` / `StopScrolling` holds: the main log's, or a registered
process's output or error status (by position in the registry). -/
inductive ScrollTarget where
  | main
  | procOut (i : Nat)
  | procErr (i : Nat)
deriving DecidableEq

/-- `ActionType` from `keyboard_actions.rs`. -/
inductive ActionData where
  | close
  | scrollUp (t : ScrollTarget)
  | scrollDown (t : ScrollTarget)
  | scrollLeft (t : ScrollTarget)
  | scrollRight (t : ScrollTarget)
  | stopScrolling (t : ScrollTarget)
  | focus (i : Nat)
  | removeFocus
deriving DecidableEq

/-- Whether an action is a horizontal pan (`ScrollLeft`/`ScrollRight`). -/
def isPan : ActionData → Bool
  | .scrollLeft _ => true
  | .scrollRight _ => true
  | _ => false

/-- `KAction` from `keyboard_actions.rs`: an (event, effect) binding. -/
structure KAction where
  event : KEvent
  data : ActionData
deriving DecidableEq

/-- `ActionType::ScrollUp`: pin at the current line count (cast to `u16`)
when unpinned, else decrement the pin saturating at zero. -/
def scrollUpEffect (msgLen : Nat) (s : ScrollStatus) : ScrollStatus :=
  match s.y with
  | some y => { s with y := some (y - 1) }
  | none => { s with y := some (msgLen % 65536) }

/-- `ActionType::ScrollDown`: increment the pin (u16 arithmetic) when
pinned, otherwise do nothing. -/
def scrollDownEffect (s : ScrollStatus) : ScrollStatus :=
  match s.y with
  | some y => { s with y := some ((y + 1) % 65536) }
  | none => s

/-- `ActionType::ScrollLeft`: decrement `x`, saturating at zero. -/
def scrollLeftEffect (s : ScrollStatus) : ScrollStatus :=
  { s with x := s.x - 1 }

/-- `ActionType::ScrollRight`: increment `x` (u16 arithmetic). -/
def scrollRightEffect (s : ScrollStatus) : ScrollStatus :=
  { s with x := (s.x + 1) % 65536 }

/-- `ActionType::StopScrolling`: release the vertical pin. -/
def stopScrollingEffect (s : ScrollStatus) : ScrollStatus :=
  { s with y := none }

/-- Apply `f` to the element at index `i`, if any. -/
def modifyIdx : Nat → (α → α) → List α → List α
  | _, _, [] => []
  | 0, f, a :: as => f a :: as
  | n + 1, f, a :: as => a :: modifyIdx n f as

/-- The whole shared state of the `Terminal`: the process registry, the
main log, the main scroll status and focus (`BaseStatus`), and the binding
table (`KeyBoardActions.actions`). -/
structure TermState where
  processes : List Process
  main_messages : List String
  main_scroll : ScrollStatus
  focus : Option Nat
  actions : List KAction
deriving DecidableEq

/-- Apply a scroll-family effect to the status a target refers to; the
effect receives the length of the associated message buffer (as
`ActionScroll` pairs the status with its buffer). -/
def applyScrollOn (st : TermState) (t : ScrollTarget)
    (f : Nat → ScrollStatus → ScrollStatus) : TermState :=
  match t with
  | .main => { st with main_scroll := f st.main_messages.length st.main_scroll }
  | .procOut i =>
    { st with
      processes := modifyIdx i
        (fun p =>
          { p with
            scroll_status_out := f p.out_messages.length p.scroll_status_out })
        st.processes }
  | .procErr i =>
    { st with
      processes := modifyIdx i
        (fun p =>
          { p with
            scroll_status_err := f p.err_messages.length p.scroll_status_err })
        st.processes }

/-- `ActionType::apply` as a state transformer.  `Close` restores the
terminal, runs the exit callback and terminates the process; it touches no
shared state, so it is modelled as the identity on `TermState`. -/
def applyData (st : TermState) : ActionData → TermState
  | .close => st
  | .scrollUp t => applyScrollOn st t scrollUpEffect
  | .scrollDown t => applyScrollOn st t (fun _ s => scrollDownEffect s)
  | .scrollLeft t => applyScrollOn st t (fun _ s => scrollLeftEffect s)
  | .scrollRight t => applyScrollOn st t (fun _ s => scrollRightEffect s)
  | .stopScrolling t => applyScrollOn st t (fun _ s => stopScrollingEffect s)
  | .focus i => { st with focus := some i }
  | .removeFocus => { st with focus := none }

/-- `KeyBoardActions::apply_event`: every binding whose pattern equals the
event is applied, in registration order. -/
def apply_event (st : TermState) (ev : KEvent) : TermState :=
  (st.actions.filter (fun a => a.event == ev)).foldl
    (fun s a => applyData s a.data) st

/-! ### Process registration (`Terminal::add_process`) -/

/-- Visible-stream count of a `MessageSettings` (the `match` inside the
`fold` in `add_process`). -/
def visCount : MessageSettings → Nat
  | .Output => 1
  | .Error => 1
  | .All => 2
  | .None => 0

/-- The `fold` in `add_process`: total visible-stream count of the
already-registered processes. -/
def preCount (ps : List Process) : Nat :=
  ps.foldl (fun buff p => buff + visCount p.settings.messages) 0

/-- The decimal digit character for `n < 10`. -/
def digitChar (n : Nat) : Char := Char.ofNat (48 + n)

/-- Decimal digits of a natural number (most significant first), with a
fuel argument so the definition is structural. -/
def natDigitsAux : Nat → Nat → List Char
  | 0, _ => []
  | fuel + 1, n =>
    if n < 10 then [digitChar n]
    else natDigitsAux fuel (n / 10) ++ [digitChar (n % 10)]

/-- The characters of `index.to_string()`. -/
def natDigits (n : Nat) : List Char := natDigitsAux (n + 1) n

/-- `to_char` from `keyboard_actions.rs`: the single character of the
decimal representation, or an error when there is more than one. -/
def to_char (index : Nat) : Except String Char :=
  match natDigits index with
  | [c] => .ok c
  | _ => .error "Cant add more then 9 processes."

/-- `KeyBoardActions::push_focus`: convert each index to its digit
character and push a focus binding; the first failing index aborts the
loop but keeps the bindings already pushed. -/
def pushFocus : List Nat → List KAction × Option String
  | [] => ([], none)
  | i :: rest =>
    match to_char i with
    | .error e => ([], some e)
    | .ok c =>
      let pf := pushFocus rest
      (KAction.mk (KeyCode.Char c).into_event_no_modifier (.focus i) :: pf.1,
        pf.2)

/-- The `focus_indexes` computed in `add_process` for each visibility. -/
def focusIndexes (pre_count : Nat) : MessageSettings → List Nat
  | .Output => [pre_count + 1]
  | .Error => [pre_count + 1]
  | .All => [pre_count + 1, pre_count + 2]
  | .None => []

/-- The caller-supplied `Child`: whether the piped stdout/stderr handles
are present (`child.stdout.take()` / `child.stderr.take()`). -/
structure Child where
  has_stdout : Bool
  has_stderr : Bool
deriving DecidableEq

/-- The pipe checks of `add_process` (the `?` early returns): for each
requested visible stream the corresponding pipe must be present. -/
def pipeCheck (name : String) (child : Child) : MessageSettings → Option String
  | .Output =>
    if child.has_stdout then none
    else some ("Failed to get stdout on process: " ++ name)
  | .Error =>
    if child.has_stderr then none
    else some ("Failed to get stderr on process: " ++ name)
  | .All =>
    if child.has_stdout then
      if child.has_stderr then none
      else some ("Failed to get stderr on process: " ++ name)
    else some ("Failed to get stdout on process: " ++ name)
  | .None => none

/-- The four bindings pushed per iteration of the scroll-settings loop in
`add_process`; the loop body runs once for the output pair and once for
the error pair, and in both iterations the shift-modified down key is
bound to `StopScrolling` of the output status and of the error status. -/
def scrollActionsFor (tgt : ScrollTarget) (n : Nat) (up_right down_left : KeyCode) :
    List KAction :=
  [ KAction.mk up_right.into_event_no_modifier (.scrollUp tgt),
    KAction.mk down_left.into_event_no_modifier (.scrollDown tgt),
    KAction.mk (down_left.into_event .shift) (.stopScrolling (.procOut n)),
    KAction.mk (down_left.into_event .shift) (.stopScrolling (.procErr n)) ]

/-- All bindings pushed by the scroll-settings block of `add_process` for
the process at registry index `n`. -/
def scrollActions (n : Nat) (up_right down_left : KeyCode) : List KAction :=
  scrollActionsFor (.procOut n) n up_right down_left ++
    scrollActionsFor (.procErr n) n up_right down_left

/-- `Terminal::add_process`.  The new process is pushed into the registry
first; the pipe checks, scroll-binding block and `push_focus` follow, and
an error from any of them leaves the already-performed mutations in
place. -/
def add_process (st : TermState) (name : String) (child : Child)
    (settings : ProcessSettings) : TermState × Option String :=
  let process := Process.new name settings
  let pre_count := preCount st.processes
  let n := st.processes.length
  let st1 := { st with processes := st.processes ++ [process] }
  match pipeCheck name child settings.messages with
  | some e => (st1, some e)
  | none =>
    let idxs := focusIndexes pre_count settings.messages
    let st2 :=
      match settings.scroll with
      | .Disable => st1
      | .Enable u d => { st1 with actions := st1.actions ++ scrollActions n u d }
    let pf := pushFocus idxs
    ({ st2 with actions := st2.actions ++ pf.1 }, pf.2)

/-- The built-in bindings installed by `KeyBoardActions::new`. -/
def builtinActions : List KAction :=
  [ KAction.mk ((KeyCode.Char 'c').into_event .ctrl) .close,
    KAction.mk KeyCode.Up.into_event_no_modifier (.scrollUp .main),
    KAction.mk KeyCode.Down.into_event_no_modifier (.scrollDown .main),
    KAction.mk KeyCode.Left.into_event_no_modifier (.scrollLeft .main),
    KAction.mk KeyCode.Right.into_event_no_modifier (.scrollRight .main),
    KAction.mk (KeyCode.Char '0').into_event_no_modifier (.focus 0),
    KAction.mk KeyCode.Esc.into_event_no_modifier .removeFocus ]

/-- The state of a freshly constructed `Terminal`. -/
def initState : TermState :=
  { processes := []
    main_messages := []
    main_scroll := ScrollStatus.init
    focus := none
    actions := builtinActions }

/-- The process lookup performed by `block_search_message`. -/
def findProcess (st : TermState) (name : String) : Option Process :=
  st.processes.find? (fun p => p.name == name)

/-! ### Spec-side decomposition used to state the stripping claim -/

/-- A well-formed ANSI CSI escape sequence: `ESC [`, parameter bytes,
intermediate bytes, and a final byte. -/
def IsCSISeq (s : List Char) : Prop :=
  ∃ ps ins f, s = escChar :: '[' :: (ps ++ ins ++ [f]) ∧
    (∀ c ∈ ps, isParamByte c = true) ∧
    (∀ c ∈ ins, isInterByte c = true) ∧
    isFinalByte f = true

/-- Interleave plain segments and escape sequences, ending with `tail`. -/
def segmentsJoin : List (List Char × List Char) → List Char → List Char
  | [], tail => tail
  | (p, s) :: rest, tail => p ++ (s ++ segmentsJoin rest tail)

/-- The plain segments only. -/
def segmentsPlain : List (List Char × List Char) → List Char → List Char
  | [], tail => tail
  | (p, _) :: rest, tail => p ++ segmentsPlain rest tail

/-! ### Lemmas about the stripper -/

theorem matchCSIBody_length {l r : List Char} (h : matchCSIBody l = some r) :
    r.length < l.length := by
  unfold matchCSIBody at h
  cases h2 : (l.dropWhile isParamByte).dropWhile isInterByte with
  | nil => rw [h2] at h; exact absurd h (by simp)
  | cons c rest =>
    rw [h2] at h
    by_cases hf : isFinalByte c = true
    · simp [hf] at h
      subst h
      have h3 : (c :: rest).length ≤ (l.dropWhile isParamByte).length := by
        rw [← h2]
        exact (List.dropWhile_sublist _).length_le
      have h4 : (l.dropWhile isParamByte).length ≤ l.length :=
        (List.dropWhile_sublist _).length_le
      simp at h3
      omega
    · simp [hf] at h

theorem stripCSIFuel_congr (f1 : Nat) :
    ∀ (f2 : Nat) (l : List Char), l.length ≤ f1 → l.length ≤ f2 →
      stripCSIFuel f1 l = stripCSIFuel f2 l := by
  induction f1 with
  | zero =>
    intro f2 l h1 _
    cases l with
    | nil => cases f2 <;> rfl
    | cons c rest => simp at h1
  | succ f1 ih =>
    intro f2 l h1 h2
    cases l with
    | nil => cases f2 <;> rfl
    | cons c rest =>
      cases f2 with
      | zero => simp at h2
      | succ f2 =>
        simp only [List.length_cons, Nat.add_le_add_iff_right] at h1 h2
        by_cases hc : c = escChar
        · cases rest with
          | nil => simp [stripCSIFuel, hc]
          | cons b rest2 =>
            by_cases hb : b = '['
            · cases hm : matchCSIBody rest2 with
              | some rest3 =>
                have hlen := matchCSIBody_length hm
                simp only [List.length_cons] at h1 h2
                simp only [stripCSIFuel, if_pos hc, if_pos hb, hm]
                exact ih f2 rest3 (by omega) (by omega)
              | none =>
                simp only [stripCSIFuel, if_pos hc, if_pos hb, hm]
                exact congrArg (c :: ·) (ih f2 (b :: rest2) h1 h2)
            · simp only [stripCSIFuel, if_pos hc, if_neg hb]
              exact congrArg (c :: ·) (ih f2 (b :: rest2) h1 h2)
        · simp only [stripCSIFuel, if_neg hc]
          exact congrArg (c :: ·) (ih f2 rest h1 h2)

theorem stripCSI_cons_ne {c : Char} (l : List Char) (hc : c ≠ escChar) :
    stripCSI (c :: l) = c :: stripCSI l := by
  simp [stripCSI, stripCSIFuel, hc]

theorem stripCSI_plain_append {p : List Char} (r : List Char)
    (hp : ∀ c ∈ p, c ≠ escChar) :
    stripCSI (p ++ r) = p ++ stripCSI r := by
  induction p with
  | nil => rfl
  | cons c t ih =>
    rw [List.cons_append, stripCSI_cons_ne _ (hp c (List.mem_cons_self c t)),
      ih (fun x hx => hp x (List.mem_cons_of_mem c hx))]
    rfl

theorem stripCSI_noesc (l : List Char) (h : ∀ c ∈ l, c ≠ escChar) :
    stripCSI l = l := by
  have h1 := stripCSI_plain_append (p := l) [] h
  have h0 : stripCSI ([] : List Char) = [] := rfl
  simpa [h0] using h1

theorem interByte_not_param {c : Char} (h : isInterByte c = true) :
    isParamByte c = false := by
  simp [isInterByte] at h
  simp [isParamByte]
  omega

theorem finalByte_not_param {c : Char} (h : isFinalByte c = true) :
    isParamByte c = false := by
  simp [isFinalByte] at h
  simp [isParamByte]
  omega

theorem finalByte_not_inter {c : Char} (h : isFinalByte c = true) :
    isInterByte c = false := by
  simp [isFinalByte] at h
  simp [isInterByte]
  omega

theorem dropWhile_append_all {f : Char → Bool} {p : List Char} (t : List Char)
    (hp : ∀ c ∈ p, f c = true) :
    List.dropWhile f (p ++ t) = List.dropWhile f t := by
  induction p with
  | nil => rfl
  | cons c q ih =>
    rw [List.cons_append, List.dropWhile_cons,
      if_pos (hp c (List.mem_cons_self c q))]
    exact ih (fun x hx => hp x (List.mem_cons_of_mem c hx))

theorem matchCSIBody_decomp {ps ins : List Char} {f : Char} (r : List Char)
    (hps : ∀ c ∈ ps, isParamByte c = true)
    (hins : ∀ c ∈ ins, isInterByte c = true)
    (hf : isFinalByte f = true) :
    matchCSIBody (ps ++ (ins ++ (f :: r))) = some r := by
  unfold matchCSIBody
  rw [dropWhile_append_all _ hps]
  have h1 : List.dropWhile isParamByte (ins ++ (f :: r)) = ins ++ (f :: r) := by
    cases ins with
    | nil => simp [List.dropWhile_cons, finalByte_not_param hf]
    | cons i q =>
      rw [List.cons_append, List.dropWhile_cons,
        if_neg (by simp [interByte_not_param (hins i (List.mem_cons_self i q))])]
  rw [h1, dropWhile_append_all _ hins, List.dropWhile_cons,
    if_neg (by simp [finalByte_not_inter hf])]
  simp [hf]

theorem stripCSI_csi {ps ins : List Char} {f : Char} (r : List Char)
    (hps : ∀ c ∈ ps, isParamByte c = true)
    (hins : ∀ c ∈ ins, isInterByte c = true)
    (hf : isFinalByte f = true) :
    stripCSI (escChar :: '[' :: (ps ++ (ins ++ (f :: r)))) = stripCSI r := by
  have hm := matchCSIBody_decomp r hps hins hf
  have hlen := matchCSIBody_length hm
  simp only [stripCSI, List.length_cons, stripCSIFuel, if_pos rfl, hm]
  exact stripCSIFuel_congr _ _ r (by omega) (by omega)

/-! ### Lemmas about the output run and the search slot -/

theorem getLast?_cons_eq (x : α) (xs : List α) :
    (x :: xs).getLast? =
      match xs.getLast? with
      | some y => some y
      | none => some x := by
  cases xs with
  | nil => rfl
  | cons b t =>
    rw [List.getLast?_cons_cons]
    have hne : (b :: t).getLast? ≠ none := by
      simp [List.getLast?_eq_none_iff]
    cases hy : (b :: t).getLast? with
    | none => exact absurd hy hne
    | some y => rfl

theorem lastMatch_cons (x : String) (t : List String) (sub : String)
    (m0 : Option String) :
    lastMatch (x :: t) sub m0 =
      if containsSub sub x then lastMatch t sub (some x)
      else lastMatch t sub m0 := by
  by_cases hx : containsSub sub x
  · simp only [lastMatch, List.filter_cons, hx, if_pos, getLast?_cons_eq]
    cases hlast : ((t.filter (fun l => containsSub sub l)).getLast?) <;> simp
  · simp only [lastMatch, List.filter_cons, hx]
    simp

theorem outputRun_search (cr : Bool) (lines : List String) :
    ∀ (out0 err0 : List String) (sub : String) (m0 : Option String),
      (outputRun cr ⟨out0, err0, some ⟨sub, m0⟩⟩ lines).search
        = some ⟨sub, lastMatch (lines.map (procLine cr)) sub m0⟩ := by
  induction lines with
  | nil => intro out0 err0 sub m0; rfl
  | cons l ls ih =>
    intro out0 err0 sub m0
    have hstep : outputRun cr ⟨out0, err0, some ⟨sub, m0⟩⟩ (l :: ls)
        = outputRun cr
            ⟨out0 ++ [procLine cr l], err0,
              searchCheck (procLine cr l) (some ⟨sub, m0⟩)⟩ ls := rfl
    rw [hstep]
    by_cases hc : containsSub sub (procLine cr l)
    · rw [show searchCheck (procLine cr l) (some ⟨sub, m0⟩)
          = some ⟨sub, some (procLine cr l)⟩ by simp [searchCheck, hc]]
      rw [ih]
      simp [lastMatch_cons, hc]
    · rw [show searchCheck (procLine cr l) (some ⟨sub, m0⟩)
          = some ⟨sub, m0⟩ by simp [searchCheck, hc]]
      rw [ih]
      simp [lastMatch_cons, hc]

/-! ### Claim C1 -/

/-- C1, counterexample.  With a request for `"a"` pending, processing the
lines `["xa1", "xa2"]` (both containing `"a"`) leaves the slot holding the
SECOND matching line: the first matching line `"xa1"` resolved the request,
but the later matching line was still compared and replaced it, contrary to
the claim that later lines are not compared once the request is resolved. -/
theorem c1_counterexample :
    (outputRun false ⟨[], [], some ⟨"a", none⟩⟩ ["xa1", "xa2"]).search
        = some ⟨"a", some "xa2"⟩
    ∧ (some (SearchMessage.mk "a" (some "xa2"))
        ≠ some (SearchMessage.mk "a" (some "xa1"))) := by
  constructor
  · decide
  · decide

/-- C1, amended.  While a `SearchRequest` is pending, EVERY processed line
containing the requested substring overwrites the resolved message, so
after a run the slot holds the MOST RECENT matching line (or the initial
contents when no line matched); the comparison stops only when a consumer
clears the whole slot. -/
theorem c1_amended (cr : Bool) (lines : List String) (out0 err0 : List String)
    (sub : String) (m0 : Option String) :
    (outputRun cr ⟨out0, err0, some ⟨sub, m0⟩⟩ lines).search
      = some ⟨sub, lastMatch (lines.map (procLine cr)) sub m0⟩ :=
  outputRun_search cr lines out0 err0 sub m0

/-! ### Claim C4 -/

/-- C4, counterexample.  A pending request for `"a"` is NOT resolved by the
error-stream capture task even when the error line contains `"a"`:
`thread_error` is not given the search slot at all, so the slot stays
exactly as it was, contrary to the claim that every visible stream's task
resolves pending requests. -/
theorem c4_counterexample :
    (errorLineStep false ⟨[], [], some ⟨"a", none⟩⟩ "xa1").search
        = some ⟨"a", none⟩
    ∧ (some (SearchMessage.mk "a" none)
        ≠ some (SearchMessage.mk "a" (some "xa1"))) := by
  constructor
  · decide
  · decide

/-- C4, amended.  Only the output-stream capture task resolves pending
search requests: the error-stream task appends the (optionally stripped)
line to the error buffer and leaves the search slot and the output buffer
untouched, while the output-stream task resolves a pending request whose
substring the processed line contains. -/
theorem c4_amended (cr : Bool) (line : String) (s : ProcState) :
    (errorLineStep cr s line).search = s.search
    ∧ (errorLineStep cr s line).out = s.out
    ∧ (errorLineStep cr s line).err = s.err ++ [procLine cr line]
    ∧ (∀ sub m0, s.search = some ⟨sub, m0⟩ →
        containsSub sub (procLine cr line) = true →
        (outputLineStep cr s line).search = some ⟨sub, some (procLine cr line)⟩) := by
  refine ⟨rfl, rfl, rfl, ?_⟩
  intro sub m0 hs hc
  simp [outputLineStep, hs, searchCheck, hc]

/-- Witness for `c4_amended` at a concrete input. -/
theorem c4_amended_witness :
    (errorLineStep false ⟨["o"], ["e"], some ⟨"b", none⟩⟩ "abc").search
        = some ⟨"b", none⟩
    ∧ (outputLineStep false ⟨["o"], ["e"], some ⟨"b", none⟩⟩ "abc").search
        = some ⟨"b", some "abc"⟩ :=
  ⟨(c4_amended false "abc" ⟨["o"], ["e"], some ⟨"b", none⟩⟩).1,
    (c4_amended false "abc" ⟨["o"], ["e"], some ⟨"b", none⟩⟩).2.2.2 "b" none rfl
      (by decide)⟩

/-! ### Claim C5 -/

/-- C5.  The scroll-up effect pins an unpinned status at the current line
count of the associated buffer and decrements a pinned one saturating at
zero; the scroll-down effect increments a pinned status and leaves an
unpinned one unpinned.  (The line count and the incremented pin are below
`2^16`, matching the `u16` fields of the Rust `ScrollStatus`.) -/
theorem c5_scroll_updown (s : ScrollStatus) (len y : Nat) :
    (s.y = none → len < 65536 → scrollUpEffect len s = { s with y := some len })
    ∧ (s.y = some y → scrollUpEffect len s = { s with y := some (y - 1) })
    ∧ (s.y = some y → y + 1 < 65536 →
        scrollDownEffect s = { s with y := some (y + 1) })
    ∧ (s.y = none → scrollDownEffect s = s) := by
  obtain ⟨x, yv⟩ := s
  refine ⟨?_, ?_, ?_, ?_⟩
  · intro hy hlen
    simp at hy
    subst hy
    simp [scrollUpEffect, Nat.mod_eq_of_lt hlen]
  · intro hy
    simp at hy
    subst hy
    simp [scrollUpEffect]
  · intro hy hlt
    simp at hy
    subst hy
    simp [scrollDownEffect, Nat.mod_eq_of_lt hlt]
  · intro hy
    simp at hy
    subst hy
    simp [scrollDownEffect]

/-- Witness for `c5_scroll_updown` at concrete inputs. -/
theorem c5_scroll_updown_witness :
    scrollUpEffect 5 ⟨0, none⟩ = ⟨0, some 5⟩
    ∧ scrollUpEffect 5 ⟨0, some 0⟩ = ⟨0, some 0⟩
    ∧ scrollDownEffect ⟨0, some 3⟩ = ⟨0, some 4⟩
    ∧ scrollDownEffect ⟨0, none⟩ = ⟨0, none⟩ :=
  ⟨(c5_scroll_updown ⟨0, none⟩ 5 0).1 rfl (by decide),
    (c5_scroll_updown ⟨0, some 0⟩ 5 0).2.1 rfl,
    (c5_scroll_updown ⟨0, some 3⟩ 5 3).2.2.1 rfl (by decide),
    (c5_scroll_updown ⟨0, none⟩ 5 0).2.2.2 rfl⟩

/-! ### Claim C6 -/

/-- C6.  On a redraw tick the new snapshot is compared to the cached one by
full (structural) value equality: a draw is performed exactly when they
differ, and the cache after the tick always holds the new snapshot's
value. -/
theorem c6_null_render (read cache : DrawCacheDetach) :
    ((drawStep read cache).2 = true ↔ read ≠ cache)
    ∧ (drawStep read cache).1 = read := by
  unfold drawStep
  by_cases h : read = cache
  · subst h
    simp
  · simp [h]

/-! ### Claim C7 -/

theorem stripCSI_segments (parts : List (List Char × List Char)) :
    ∀ tail : List Char,
      (∀ pc ∈ parts, (∀ c ∈ pc.1, c ≠ escChar) ∧ IsCSISeq pc.2) →
      (∀ c ∈ tail, c ≠ escChar) →
      stripCSI (segmentsJoin parts tail) = segmentsPlain parts tail := by
  induction parts with
  | nil =>
    intro tail _ htail
    exact stripCSI_noesc tail htail
  | cons pc rest ih =>
    intro tail hparts htail
    obtain ⟨p, s⟩ := pc
    obtain ⟨hp, ps, ins, f, hs, hps, hins, hf⟩ :=
      hparts (p, s) (List.mem_cons_self _ _)
    dsimp only at hp hs
    have hrest : ∀ pc ∈ rest, (∀ c ∈ pc.1, c ≠ escChar) ∧ IsCSISeq pc.2 :=
      fun pc hpc => hparts pc (List.mem_cons_of_mem _ hpc)
    show stripCSI (p ++ (s ++ segmentsJoin rest tail)) = p ++ segmentsPlain rest tail
    rw [stripCSI_plain_append _ hp, hs]
    have hshape : (escChar :: '[' :: (ps ++ ins ++ [f])) ++ segmentsJoin rest tail
        = escChar :: '[' :: (ps ++ (ins ++ (f :: segmentsJoin rest tail))) := by
      simp
    rw [hshape, stripCSI_csi _ hps hins hf, ih tail hrest htail]

/-- C7.  With stripping enabled, a line decomposed into escape-free plain
segments interleaved with well-formed CSI escape sequences is stored as the
concatenation of the plain segments only (every CSI sequence removed, all
other characters including whitespace unchanged); with stripping disabled,
the stored line is the input unchanged. -/
theorem c7_strip_roundtrip (parts : List (List Char × List Char))
    (tail : List Char)
    (hparts : ∀ pc ∈ parts, (∀ c ∈ pc.1, c ≠ escChar) ∧ IsCSISeq pc.2)
    (htail : ∀ c ∈ tail, c ≠ escChar) :
    clearLine true (segmentsJoin parts tail) = segmentsPlain parts tail
    ∧ ∀ l, clearLine false l = l := by
  constructor
  · exact stripCSI_segments parts tail hparts htail
  · intro l
    rfl

/-- Witness for `c7_strip_roundtrip`: the line `"ab" ESC[31m "cd"` strips
to `"abcd"`, and stripping disabled leaves a sample line unchanged. -/
theorem c7_strip_roundtrip_witness :
    clearLine true
        (segmentsJoin [(['a', 'b'], [escChar, '[', '3', '1', 'm'])] ['c', 'd'])
      = segmentsPlain [(['a', 'b'], [escChar, '[', '3', '1', 'm'])] ['c', 'd']
    ∧ clearLine false ['x', ' ', 'y'] = ['x', ' ', 'y'] := by
  have h := c7_strip_roundtrip [(['a', 'b'], [escChar, '[', '3', '1', 'm'])]
    ['c', 'd']
    (by
      intro pc hpc
      simp only [List.mem_singleton] at hpc
      subst hpc
      exact ⟨by decide, ['3', '1'], [], 'm', by decide, by decide, by decide,
        by decide⟩)
    (by decide)
  exact ⟨h.1, h.2 ['x', ' ', 'y']⟩

/-! ### Lemmas about registration -/

theorem foldl_add_vis (ps : List Process) :
    ∀ a : Nat,
      ps.foldl (fun buff p => buff + visCount p.settings.messages) a
        = a + (ps.map (fun p => visCount p.settings.messages)).sum := by
  induction ps with
  | nil => intro a; simp
  | cons p t ih =>
    intro a
    simp only [List.foldl_cons, List.map_cons, List.sum_cons]
    rw [ih]
    omega

theorem preCount_eq_sum (ps : List Process) :
    preCount ps = (ps.map (fun p => visCount p.settings.messages)).sum := by
  have h := foldl_add_vis ps 0
  simpa [preCount] using h

theorem preCount_append_one (ps : List Process) (p : Process) :
    preCount (ps ++ [p]) = preCount ps + visCount p.settings.messages := by
  simp [preCount_eq_sum]

theorem natDigitsAux_ne_nil (fuel n : Nat) (h : fuel ≠ 0) :
    natDigitsAux fuel n ≠ [] := by
  cases fuel with
  | zero => exact absurd rfl h
  | succ f =>
    by_cases hn : n < 10
    · simp [natDigitsAux, hn]
    · simp [natDigitsAux, hn]

theorem to_char_lt {n : Nat} (h : n < 10) : to_char n = .ok (digitChar n) := by
  simp [to_char, natDigits, natDigitsAux, h]

theorem to_char_ge {n : Nat} (h : 10 ≤ n) :
    to_char n = .error "Cant add more then 9 processes." := by
  have hn : ¬n < 10 := by omega
  have hne : natDigitsAux n (n / 10) ≠ [] :=
    natDigitsAux_ne_nil n (n / 10) (by omega)
  unfold to_char natDigits
  rw [show n + 1 = n + 1 from rfl]
  simp only [natDigitsAux, hn, if_false]
  cases hd : natDigitsAux n (n / 10) with
  | nil => exact absurd hd hne
  | cons a t =>
    cases t with
    | nil => rfl
    | cons b q => rfl

theorem find?_name_append (ps : List Process) (p : Process) (name : String)
    (hp : p.name = name) :
    ((ps ++ [p]).find? (fun q => q.name == name)).isSome = true := by
  induction ps with
  | nil => simp [List.find?, hp]
  | cons a t ih =>
    rw [List.cons_append, List.find?_cons]
    cases ha : (a.name == name) with
    | true => simp
    | false => simpa [ha] using ih

/-! ### Claim C2 -/

/-- C2.  For any registry contents, the pane (focus) index of a newly
registered process's first visible stream is `1 +` the sum of the
visible-stream counts of all previously registered processes (Output or
Error count 1, both count 2, none count 0); and in the concrete scenario,
registering "Foo" (output only) and then "Bar" (both streams) binds Bar's
streams to focus indexes 2 and 3, so Bar's error-stream pane index is 3. -/
theorem c2_pane_index (st : TermState) :
    ((focusIndexes (preCount st.processes) .Output).head?
        = some (1 + (st.processes.map (fun p => visCount p.settings.messages)).sum))
    ∧ ((focusIndexes (preCount st.processes) .Error).head?
        = some (1 + (st.processes.map (fun p => visCount p.settings.messages)).sum))
    ∧ ((focusIndexes (preCount st.processes) .All).head?
        = some (1 + (st.processes.map (fun p => visCount p.settings.messages)).sum))
    ∧ ((add_process (add_process initState "Foo" ⟨true, true⟩
            ⟨.Output, .Disable, true⟩).1 "Bar" ⟨true, true⟩
            ⟨.All, .Disable, true⟩).2 = none)
    ∧ ((add_process (add_process initState "Foo" ⟨true, true⟩
            ⟨.Output, .Disable, true⟩).1 "Bar" ⟨true, true⟩
            ⟨.All, .Disable, true⟩).1.actions
        = (add_process initState "Foo" ⟨true, true⟩
            ⟨.Output, .Disable, true⟩).1.actions
          ++ [KAction.mk ((KeyCode.Char '2').into_event_no_modifier) (.focus 2),
              KAction.mk ((KeyCode.Char '3').into_event_no_modifier) (.focus 3)]) := by
  refine ⟨?_, ?_, ?_, by decide, by decide⟩
  all_goals
    simp [focusIndexes, preCount_eq_sum, Nat.add_comm]

/-! ### Claim C3 -/

theorem pushFocus_one (i : Nat) :
    (pushFocus [i]).2 = if i < 10 then none
      else some "Cant add more then 9 processes." := by
  by_cases hi : i < 10
  · rw [pushFocus, to_char_lt hi]
    simp [pushFocus, hi]
  · rw [pushFocus, to_char_ge (by omega)]
    simp [hi]

theorem pushFocus_two (i j : Nat) :
    (pushFocus [i, j]).2 = if i < 10 ∧ j < 10 then none
      else some "Cant add more then 9 processes." := by
  by_cases hi : i < 10
  · rw [pushFocus, to_char_lt hi]
    by_cases hj : j < 10
    · rw [pushFocus, to_char_lt hj]
      simp [pushFocus, hi, hj]
    · rw [pushFocus, to_char_ge (by omega)]
      simp [hi, hj]
  · rw [pushFocus, to_char_ge (by omega)]
    simp [hi]

theorem add_process_snd (st : TermState) (name : String) (child : Child)
    (settings : ProcessSettings) :
    (add_process st name child settings).2 =
      match pipeCheck name child settings.messages with
      | some e => some e
      | none => (pushFocus (focusIndexes (preCount st.processes)
          settings.messages)).2 := by
  unfold add_process
  cases hpc : pipeCheck name child settings.messages with
  | some e => rfl
  | none => cases settings.scroll <;> rfl

/-- C3.  With the required pipes available, a registration succeeds exactly
when every focus index it creates is at most 9: an output-only or
error-only process succeeds iff the previous visible-stream count plus 1
is at most 9 (so the 9th focusable stream registers fine), and a
both-streams process succeeds iff the previous count plus 2 is at most 9;
any registration that would create a focus index of 10 or more returns an
error. -/
theorem c3_focus_limit (st : TermState) (name : String) (sc : ScrollSettings)
    (cr : Bool) :
    (((add_process st name ⟨true, true⟩ ⟨.Output, sc, cr⟩).2 = none)
        ↔ preCount st.processes + 1 ≤ 9)
    ∧ (((add_process st name ⟨true, true⟩ ⟨.Error, sc, cr⟩).2 = none)
        ↔ preCount st.processes + 1 ≤ 9)
    ∧ (((add_process st name ⟨true, true⟩ ⟨.All, sc, cr⟩).2 = none)
        ↔ preCount st.processes + 2 ≤ 9) := by
  refine ⟨?_, ?_, ?_⟩
  · rw [add_process_snd]
    simp only [pipeCheck, if_pos rfl, focusIndexes, pushFocus_one]
    by_cases h : preCount st.processes + 1 < 10 <;> simp [h] <;> omega
  · rw [add_process_snd]
    simp only [pipeCheck, if_pos rfl, focusIndexes, pushFocus_one]
    by_cases h : preCount st.processes + 1 < 10 <;> simp [h] <;> omega
  · rw [add_process_snd]
    simp only [pipeCheck, if_pos rfl, focusIndexes, pushFocus_two]
    by_cases h : preCount st.processes + 1 < 10 ∧ preCount st.processes + 2 < 10
    · rw [if_pos h]
      simp
      omega
    · rw [if_neg h]
      simp
      omega

/-- Witness for `c3_focus_limit` (the iff instantiated on the empty
registry: the first registration, focus index 1, succeeds). -/
theorem c3_focus_limit_witness :
    (((add_process initState "Foo" ⟨true, true⟩ ⟨.Output, .Disable, true⟩).2
        = none) ↔ preCount initState.processes + 1 ≤ 9)
    ∧ (((add_process initState "Foo" ⟨true, true⟩ ⟨.Error, .Disable, true⟩).2
        = none) ↔ preCount initState.processes + 1 ≤ 9)
    ∧ (((add_process initState "Foo" ⟨true, true⟩ ⟨.All, .Disable, true⟩).2
        = none) ↔ preCount initState.processes + 2 ≤ 9) :=
  c3_focus_limit initState "Foo" .Disable true

/-! ### Claim C9 -/

/-- C9.  Registration is not atomic on error: whenever `add_process`
returns an error, the new process has nevertheless been appended to the
registry and stays there, so it still contributes its configured
visible-stream count to the pane indexes of later registrations
(`preCount` grows by its `visCount`), and a subsequent blocking search
finds its name. -/
theorem c9_nonatomic (st : TermState) (name : String) (child : Child)
    (settings : ProcessSettings) (e : String)
    (_herr : (add_process st name child settings).2 = some e) :
    ((add_process st name child settings).1.processes
        = st.processes ++ [Process.new name settings])
    ∧ (preCount (add_process st name child settings).1.processes
        = preCount st.processes + visCount settings.messages)
    ∧ ((findProcess (add_process st name child settings).1 name).isSome
        = true) := by
  have hps : (add_process st name child settings).1.processes
      = st.processes ++ [Process.new name settings] := by
    unfold add_process
    cases hpc : pipeCheck name child settings.messages with
    | some e2 => rfl
    | none => cases settings.scroll <;> rfl
  refine ⟨hps, ?_, ?_⟩
  · rw [hps, preCount_append_one]
    rfl
  · rw [findProcess, hps]
    exact find?_name_append st.processes (Process.new name settings) name rfl

/-- Witness for `c9_nonatomic`: registering "Foo" with its stdout pipe
missing fails, yet the process is in the registry and findable. -/
theorem c9_nonatomic_witness :
    ((add_process initState "Foo" ⟨false, true⟩ ⟨.Output, .Disable, true⟩).1.processes
        = initState.processes ++ [Process.new "Foo" ⟨.Output, .Disable, true⟩])
    ∧ (preCount (add_process initState "Foo" ⟨false, true⟩
          ⟨.Output, .Disable, true⟩).1.processes
        = preCount initState.processes + visCount .Output)
    ∧ ((findProcess (add_process initState "Foo" ⟨false, true⟩
          ⟨.Output, .Disable, true⟩).1 "Foo").isSome = true) :=
  c9_nonatomic initState "Foo" ⟨false, true⟩ ⟨.Output, .Disable, true⟩
    "Failed to get stdout on process: Foo" (by decide)

/-! ### Claim C8 -/

/-- C8, counterexample.  For a concrete scroll-enabled registration (up key
`w`, down key `s`, registry index 0) the per-process bindings contain NO
shift-modified variant of the scroll-up key at all, and NO binding whose
effect is a horizontal pan (`ScrollLeft`/`ScrollRight`) — contrary to the
claim that each scroll key gets a shift-modified horizontal-pan variant. -/
theorem c8_counterexample :
    ((scrollActions 0 (.Char 'w') (.Char 's')).filter
        (fun a => a.event == (KeyCode.Char 'w').into_event .shift)) = []
    ∧ (scrollActions 0 (.Char 'w') (.Char 's')).all
        (fun a => !(isPan a.data)) = true := by
  constructor
  · decide
  · decide

/-- C8, amended.  For a scroll-enabled process the per-process bindings
bind the shift-modified scroll-down key to releasing the vertical pin of
both of the process's stream statuses (pushed once per loop iteration,
four `StopScrolling` bindings in all); no binding added for the process is
a horizontal pan, and (when the two scroll keys differ) there is no
shift-modified variant of the scroll-up key. -/
theorem c8_amended (n : Nat) (u d : KeyCode) (hud : u ≠ d) :
    ((scrollActions n u d).filter (fun a => a.event == d.into_event .shift)
      = [KAction.mk (d.into_event .shift) (.stopScrolling (.procOut n)),
         KAction.mk (d.into_event .shift) (.stopScrolling (.procErr n)),
         KAction.mk (d.into_event .shift) (.stopScrolling (.procOut n)),
         KAction.mk (d.into_event .shift) (.stopScrolling (.procErr n))])
    ∧ (scrollActions n u d).all (fun a => !(isPan a.data)) = true
    ∧ (scrollActions n u d).filter
        (fun a => a.event == u.into_event .shift) = [] := by
  have h1 : (u.into_event_no_modifier == d.into_event .shift) = false := by
    rw [beq_eq_false_iff_ne]
    simp [KeyCode.into_event, KeyCode.into_event_no_modifier]
  have h2 : (d.into_event_no_modifier == d.into_event .shift) = false := by
    rw [beq_eq_false_iff_ne]
    simp [KeyCode.into_event, KeyCode.into_event_no_modifier]
  have h3 : (d.into_event .shift == d.into_event .shift) = true := by
    simp
  have h4 : (u.into_event_no_modifier == u.into_event .shift) = false := by
    rw [beq_eq_false_iff_ne]
    simp [KeyCode.into_event, KeyCode.into_event_no_modifier]
  have h5 : (d.into_event_no_modifier == u.into_event .shift) = false := by
    rw [beq_eq_false_iff_ne]
    simp [KeyCode.into_event, KeyCode.into_event_no_modifier]
  have h6 : (d.into_event .shift == u.into_event .shift) = false := by
    rw [beq_eq_false_iff_ne]
    simp [KeyCode.into_event, Ne.symm hud]
  refine ⟨?_, ?_, ?_⟩
  · simp [scrollActions, scrollActionsFor, List.filter, h1, h2, h3]
  · simp [scrollActions, scrollActionsFor, isPan]
  · simp [scrollActions, scrollActionsFor, List.filter, h4, h5, h6]

/-- Witness for `c8_amended` at concrete keys. -/
theorem c8_amended_witness :
    ((scrollActions 0 (.Char 'w') (.Char 's')).filter
        (fun a => a.event == (KeyCode.Char 's').into_event .shift)
      = [KAction.mk ((KeyCode.Char 's').into_event .shift)
            (.stopScrolling (.procOut 0)),
         KAction.mk ((KeyCode.Char 's').into_event .shift)
            (.stopScrolling (.procErr 0)),
         KAction.mk ((KeyCode.Char 's').into_event .shift)
            (.stopScrolling (.procOut 0)),
         KAction.mk ((KeyCode.Char 's').into_event .shift)
            (.stopScrolling (.procErr 0))])
    ∧ (scrollActions 0 (.Char 'w') (.Char 's')).all
        (fun a => !(isPan a.data)) = true
    ∧ (scrollActions 0 (.Char 'w') (.Char 's')).filter
        (fun a => a.event == (KeyCode.Char 'w').into_event .shift) = [] :=
  c8_amended 0 (.Char 'w') (.Char 's') (by decide)

/-! ### Claim C10 -/

theorem add_process_ok_scroll (st : TermState) (name : String) (child : Child)
    (m : MessageSettings) (cr : Bool) (u d : KeyCode)
    (hok : (add_process st name child ⟨m, .Enable u d, cr⟩).2 = none) :
    (add_process st name child ⟨m, .Enable u d, cr⟩).1
      = { st with
          processes := st.processes ++ [Process.new name ⟨m, .Enable u d, cr⟩]
          actions := (st.actions ++ scrollActions st.processes.length u d)
            ++ (pushFocus (focusIndexes (preCount st.processes) m)).1 }
    ∧ (pushFocus (focusIndexes (preCount st.processes) m)).2 = none := by
  unfold add_process at hok ⊢
  dsimp only at hok ⊢
  cases hpc : pipeCheck name child m with
  | some e =>
    rw [hpc] at hok
    simp at hok
  | none =>
    rw [hpc] at hok
    exact ⟨rfl, hok⟩

theorem pushFocus_ok_events (l : List Nat) (hok : (pushFocus l).2 = none) :
    ∀ a ∈ (pushFocus l).1, ∃ i, i < 10 ∧
      a = KAction.mk ((KeyCode.Char (digitChar i)).into_event_no_modifier)
        (.focus i) := by
  induction l with
  | nil =>
    intro a ha
    simp [pushFocus] at ha
  | cons i rest ih =>
    by_cases hi : i < 10
    · rw [pushFocus, to_char_lt hi] at hok ⊢
      dsimp only at hok ⊢
      intro a ha
      rcases List.mem_cons.mp ha with h | h
      · exact ⟨i, hi, h⟩
      · exact ih hok a h
    · rw [pushFocus, to_char_ge (by omega)] at hok
      simp at hok

theorem filter_event_nil (ev : KEvent) (l : List KAction)
    (h : ∀ a ∈ l, a.event ≠ ev) :
    l.filter (fun a => a.event == ev) = [] := by
  induction l with
  | nil => rfl
  | cons a t ih =>
    have ha : (a.event == ev) = false := by
      rw [beq_eq_false_iff_ne]
      exact h a (List.mem_cons_self a t)
    rw [List.filter_cons]
    simp only [ha, Bool.false_eq_true, if_false]
    exact ih (fun b hb => h b (List.mem_cons_of_mem a hb))

theorem modifyIdx_append_last (xs : List α) (p : α) (f : α → α) :
    modifyIdx xs.length f (xs ++ [p]) = xs ++ [f p] := by
  induction xs with
  | nil => rfl
  | cons a t ih =>
    show a :: modifyIdx t.length f (t ++ [p]) = a :: (t ++ [f p])
    rw [ih]

theorem scrollActions_filter_up (n : Nat) (u d : KeyCode) (hud : u ≠ d) :
    (scrollActions n u d).filter (fun a => a.event == u.into_event_no_modifier)
      = [KAction.mk u.into_event_no_modifier (.scrollUp (.procOut n)),
         KAction.mk u.into_event_no_modifier (.scrollUp (.procErr n))] := by
  have h1 : (u.into_event_no_modifier == u.into_event_no_modifier) = true := by
    simp
  have h2 : (d.into_event_no_modifier == u.into_event_no_modifier) = false := by
    rw [beq_eq_false_iff_ne]
    intro hcontra
    apply hud
    have hc := congrArg KEvent.code hcontra
    simpa [KeyCode.into_event_no_modifier] using hc.symm
  have h3 : (d.into_event .shift == u.into_event_no_modifier) = false := by
    rw [beq_eq_false_iff_ne]
    simp [KeyCode.into_event, KeyCode.into_event_no_modifier]
  simp [scrollActions, scrollActionsFor, List.filter, h1, h2, h3]


theorem scrollActions_filter_down (n : Nat) (u d : KeyCode) (hud : u ≠ d) :
    (scrollActions n u d).filter (fun a => a.event == d.into_event_no_modifier)
      = [KAction.mk d.into_event_no_modifier (.scrollDown (.procOut n)),
         KAction.mk d.into_event_no_modifier (.scrollDown (.procErr n))] := by
  have h1 : (u.into_event_no_modifier == d.into_event_no_modifier) = false := by
    rw [beq_eq_false_iff_ne]
    intro hcontra
    apply hud
    have hc := congrArg KEvent.code hcontra
    simpa [KeyCode.into_event_no_modifier] using hc
  have h2 : (d.into_event_no_modifier == d.into_event_no_modifier) = true := by
    simp
  have h3 : (d.into_event .shift == d.into_event_no_modifier) = false := by
    rw [beq_eq_false_iff_ne]
    simp [KeyCode.into_event, KeyCode.into_event_no_modifier]
  simp [scrollActions, scrollActionsFor, List.filter, h1, h2, h3]

theorem apply_event_scrollUp_pair (S : TermState) (xs : List Process)
    (q : Process) (ev : KEvent)
    (hp : S.processes = xs ++ [q])
    (hf : S.actions.filter (fun a => a.event == ev)
      = [KAction.mk ev (.scrollUp (.procOut xs.length)),
         KAction.mk ev (.scrollUp (.procErr xs.length))]) :
    apply_event S ev
      = { S with processes := xs ++
          [{ q with
              scroll_status_out :=
                scrollUpEffect q.out_messages.length q.scroll_status_out,
              scroll_status_err :=
                scrollUpEffect q.err_messages.length q.scroll_status_err }] } := by
  unfold apply_event
  rw [hf]
  dsimp only [List.foldl]
  simp only [applyData, applyScrollOn]
  rw [hp, modifyIdx_append_last, modifyIdx_append_last]

theorem apply_event_scrollDown_pair (S : TermState) (xs : List Process)
    (q : Process) (ev : KEvent)
    (hp : S.processes = xs ++ [q])
    (hf : S.actions.filter (fun a => a.event == ev)
      = [KAction.mk ev (.scrollDown (.procOut xs.length)),
         KAction.mk ev (.scrollDown (.procErr xs.length))]) :
    apply_event S ev
      = { S with processes := xs ++
          [{ q with
              scroll_status_out := scrollDownEffect q.scroll_status_out,
              scroll_status_err := scrollDownEffect q.scroll_status_err }] } := by
  unfold apply_event
  rw [hf]
  dsimp only [List.foldl]
  simp only [applyData, applyScrollOn]
  rw [hp, modifyIdx_append_last, modifyIdx_append_last]

/-- C10, counterexample.  For a concrete scroll-enabled registration
("P", scroll keys `w`/`s`, fresh terminal), the scroll-down key IS bound to
the two `ScrollDown` effects (output and error status), yet a single press
of it mutates NEITHER scroll status of the process — the whole terminal
state is unchanged, because `ScrollDown` does nothing on an unpinned
status — contrary to the claim that a single scroll keypress mutates both
scroll statuses of that process. -/
theorem c10_counterexample :
    ((scrollActions 0 (.Char 'w') (.Char 's')).filter
        (fun a => a.event == (KeyCode.Char 's').into_event_no_modifier)
      = [KAction.mk ((KeyCode.Char 's').into_event_no_modifier)
            (.scrollDown (.procOut 0)),
         KAction.mk ((KeyCode.Char 's').into_event_no_modifier)
            (.scrollDown (.procErr 0))])
    ∧ apply_event (add_process initState "P" ⟨true, true⟩
          ⟨.Output, .Enable (.Char 'w') (.Char 's'), false⟩).1
          ((KeyCode.Char 's').into_event_no_modifier)
      = (add_process initState "P" ⟨true, true⟩
          ⟨.Output, .Enable (.Char 'w') (.Char 's'), false⟩).1 := by
  constructor
  · decide
  · decide

/-- C10, amended.  For a successful scroll-enabled registration (any
stream visibility), the scroll-up key and the scroll-down key are EACH
bound to two effects among the bindings added for the process — one
targeting the output stream's status and one targeting the error stream's
status; when no other binding matches those keys, a scroll-up keypress
mutates both statuses (pinning both, here at line count 0 of the fresh
buffers), a scroll-down keypress applies the scroll-down effect to both
but mutates nothing while they are unpinned, and a scroll-down keypress
after a scroll-up mutates both pinned statuses (incrementing both pins);
in every case all other processes' statuses are left unchanged. -/
theorem c10_scroll_both_streams (st : TermState) (name : String)
    (child : Child) (m : MessageSettings) (cr : Bool) (u d : KeyCode)
    (hok : (add_process st name child ⟨m, .Enable u d, cr⟩).2 = none)
    (hud : u ≠ d)
    (hold_u : ∀ a ∈ st.actions, a.event ≠ u.into_event_no_modifier)
    (hold_d : ∀ a ∈ st.actions, a.event ≠ d.into_event_no_modifier)
    (hdig_u : ∀ k, k < 10 → u ≠ KeyCode.Char (digitChar k))
    (hdig_d : ∀ k, k < 10 → d ≠ KeyCode.Char (digitChar k)) :
    ((scrollActions st.processes.length u d).filter
        (fun a => a.event == u.into_event_no_modifier)
      = [KAction.mk u.into_event_no_modifier
            (.scrollUp (.procOut st.processes.length)),
         KAction.mk u.into_event_no_modifier
            (.scrollUp (.procErr st.processes.length))])
    ∧ ((scrollActions st.processes.length u d).filter
        (fun a => a.event == d.into_event_no_modifier)
      = [KAction.mk d.into_event_no_modifier
            (.scrollDown (.procOut st.processes.length)),
         KAction.mk d.into_event_no_modifier
            (.scrollDown (.procErr st.processes.length))])
    ∧ (apply_event (add_process st name child ⟨m, .Enable u d, cr⟩).1
          u.into_event_no_modifier
      = { (add_process st name child ⟨m, .Enable u d, cr⟩).1 with
          processes := st.processes ++
            [{ Process.new name ⟨m, .Enable u d, cr⟩ with
                scroll_status_out := ⟨0, some 0⟩,
                scroll_status_err := ⟨0, some 0⟩ }] })
    ∧ (apply_event (add_process st name child ⟨m, .Enable u d, cr⟩).1
          d.into_event_no_modifier
      = (add_process st name child ⟨m, .Enable u d, cr⟩).1)
    ∧ (apply_event
        (apply_event (add_process st name child ⟨m, .Enable u d, cr⟩).1
          u.into_event_no_modifier)
        d.into_event_no_modifier
      = { (add_process st name child ⟨m, .Enable u d, cr⟩).1 with
          processes := st.processes ++
            [{ Process.new name ⟨m, .Enable u d, cr⟩ with
                scroll_status_out := ⟨0, some 1⟩,
                scroll_status_err := ⟨0, some 1⟩ }] }) := by
  obtain ⟨hA, hpf⟩ := add_process_ok_scroll st name child m cr u d hok
  have hpfev := pushFocus_ok_events _ hpf
  have hpfne_u : ∀ a ∈ (pushFocus (focusIndexes (preCount st.processes) m)).1,
      a.event ≠ u.into_event_no_modifier := by
    intro a ha hcontra
    obtain ⟨i, hi, rfl⟩ := hpfev a ha
    have hc := congrArg KEvent.code hcontra
    simp [KeyCode.into_event_no_modifier] at hc
    exact hdig_u i hi hc.symm
  have hpfne_d : ∀ a ∈ (pushFocus (focusIndexes (preCount st.processes) m)).1,
      a.event ≠ d.into_event_no_modifier := by
    intro a ha hcontra
    obtain ⟨i, hi, rfl⟩ := hpfev a ha
    have hc := congrArg KEvent.code hcontra
    simp [KeyCode.into_event_no_modifier] at hc
    exact hdig_d i hi hc.symm
  have hprocs : (add_process st name child ⟨m, .Enable u d, cr⟩).1.processes
      = st.processes ++ [Process.new name ⟨m, .Enable u d, cr⟩] := by
    rw [hA]
  have hact : (add_process st name child ⟨m, .Enable u d, cr⟩).1.actions
      = (st.actions ++ scrollActions st.processes.length u d)
        ++ (pushFocus (focusIndexes (preCount st.processes) m)).1 := by
    rw [hA]
  have hfu : (add_process st name child ⟨m, .Enable u d, cr⟩).1.actions.filter
      (fun a => a.event == u.into_event_no_modifier)
      = [KAction.mk u.into_event_no_modifier
            (.scrollUp (.procOut st.processes.length)),
         KAction.mk u.into_event_no_modifier
            (.scrollUp (.procErr st.processes.length))] := by
    rw [hact, List.filter_append, List.filter_append,
      filter_event_nil _ _ hold_u,
      scrollActions_filter_up _ u d hud,
      filter_event_nil _ _ hpfne_u]
    simp
  have hfd : (add_process st name child ⟨m, .Enable u d, cr⟩).1.actions.filter
      (fun a => a.event == d.into_event_no_modifier)
      = [KAction.mk d.into_event_no_modifier
            (.scrollDown (.procOut st.processes.length)),
         KAction.mk d.into_event_no_modifier
            (.scrollDown (.procErr st.processes.length))] := by
    rw [hact, List.filter_append, List.filter_append,
      filter_event_nil _ _ hold_d,
      scrollActions_filter_down _ u d hud,
      filter_event_nil _ _ hpfne_d]
    simp
  have h3 : apply_event (add_process st name child ⟨m, .Enable u d, cr⟩).1
      u.into_event_no_modifier
      = { (add_process st name child ⟨m, .Enable u d, cr⟩).1 with
          processes := st.processes ++
            [{ Process.new name ⟨m, .Enable u d, cr⟩ with
                scroll_status_out := ⟨0, some 0⟩,
                scroll_status_err := ⟨0, some 0⟩ }] } :=
    apply_event_scrollUp_pair _ st.processes _ _ hprocs hfu
  have hAeta : (add_process st name child ⟨m, .Enable u d, cr⟩).1
      = { (add_process st name child ⟨m, .Enable u d, cr⟩).1 with
          processes := st.processes
            ++ [Process.new name ⟨m, .Enable u d, cr⟩] } := by
    rw [← hprocs]
  have h4 : apply_event (add_process st name child ⟨m, .Enable u d, cr⟩).1
      d.into_event_no_modifier
      = (add_process st name child ⟨m, .Enable u d, cr⟩).1 := by
    have h := apply_event_scrollDown_pair _ st.processes _
      d.into_event_no_modifier hprocs hfd
    rw [h]
    conv_rhs => rw [hAeta]
    rfl
  have h5 : apply_event
      (apply_event (add_process st name child ⟨m, .Enable u d, cr⟩).1
        u.into_event_no_modifier)
      d.into_event_no_modifier
      = { (add_process st name child ⟨m, .Enable u d, cr⟩).1 with
          processes := st.processes ++
            [{ Process.new name ⟨m, .Enable u d, cr⟩ with
                scroll_status_out := ⟨0, some 1⟩,
                scroll_status_err := ⟨0, some 1⟩ }] } := by
    rw [h3]
    exact apply_event_scrollDown_pair
      { (add_process st name child ⟨m, .Enable u d, cr⟩).1 with
        processes := st.processes ++
          [{ Process.new name ⟨m, .Enable u d, cr⟩ with
              scroll_status_out := ⟨0, some 0⟩,
              scroll_status_err := ⟨0, some 0⟩ }] }
      st.processes
      { Process.new name ⟨m, .Enable u d, cr⟩ with
          scroll_status_out := ⟨0, some 0⟩,
          scroll_status_err := ⟨0, some 0⟩ }
      d.into_event_no_modifier rfl hfd
  exact ⟨scrollActions_filter_up _ u d hud,
    scrollActions_filter_down _ u d hud, h3, h4, h5⟩

/-- Witness for `c10_scroll_both_streams`: registering "P" on a fresh
terminal with scroll keys `w`/`s`; pressing `w` pins both statuses,
pressing `s` alone changes nothing, and pressing `s` after `w` increments
both pins. -/
theorem c10_scroll_both_streams_witness :
    (apply_event (add_process initState "P" ⟨true, true⟩
          ⟨.Output, .Enable (.Char 'w') (.Char 's'), false⟩).1
          ((KeyCode.Char 'w').into_event_no_modifier)
      = { (add_process initState "P" ⟨true, true⟩
            ⟨.Output, .Enable (.Char 'w') (.Char 's'), false⟩).1 with
          processes := initState.processes ++
            [{ Process.new "P" ⟨.Output, .Enable (.Char 'w') (.Char 's'), false⟩ with
                scroll_status_out := ⟨0, some 0⟩,
                scroll_status_err := ⟨0, some 0⟩ }] })
    ∧ (apply_event (add_process initState "P" ⟨true, true⟩
          ⟨.Output, .Enable (.Char 'w') (.Char 's'), false⟩).1
          ((KeyCode.Char 's').into_event_no_modifier)
      = (add_process initState "P" ⟨true, true⟩
          ⟨.Output, .Enable (.Char 'w') (.Char 's'), false⟩).1)
    ∧ (apply_event
        (apply_event (add_process initState "P" ⟨true, true⟩
            ⟨.Output, .Enable (.Char 'w') (.Char 's'), false⟩).1
          ((KeyCode.Char 'w').into_event_no_modifier))
        ((KeyCode.Char 's').into_event_no_modifier)
      = { (add_process initState "P" ⟨true, true⟩
            ⟨.Output, .Enable (.Char 'w') (.Char 's'), false⟩).1 with
          processes := initState.processes ++
            [{ Process.new "P" ⟨.Output, .Enable (.Char 'w') (.Char 's'), false⟩ with
                scroll_status_out := ⟨0, some 1⟩,
                scroll_status_err := ⟨0, some 1⟩ }] }) := by
  have h := c10_scroll_both_streams initState "P" ⟨true, true⟩ .Output false
    (.Char 'w') (.Char 's') (by decide) (by decide) (by decide) (by decide)
    (by decide) (by decide)
  exact ⟨h.2.2.1, h.2.2.2.1, h.2.2.2.2⟩
